import Mathlib

/-!
Shallow embedding of `src/libs/BouncerProvider.js` (kiwiirc).

JS strings, numbers and booleans are modelled as `String`, `Nat`, `Bool`;
values that may be `undefined` are modelled as `Option`; JS object identity
(reference equality, `===`) is modelled by an `id : Nat` field on `Network`.
JS truthiness of a possibly-`undefined` string/number is made explicit by
`truthyStr` / `truthyNat`.
-/

namespace Kiwi

/-- Connection state of a network (`network.state` strings in the client). -/
inductive NetState where
  | disconnected
  | connecting
  | connected
  deriving DecidableEq, Repr

/-- `network.connection` fields used by BouncerProvider. -/
structure Connection where
  server : String := ""
  port : Nat := 6667
  tls : Bool := false
  nick : String := ""
  bncname : String := ""
  direct : Bool := false
  path : String := ""
  deriving DecidableEq, Repr

/-- A client-side buffer (channel / query / other), the fields touched by
`syncBncNetwork`. -/
structure Buffer where
  name : String
  enabled : Bool := false
  joined : Bool := false
  last_read : Nat := 0
  topic : String := ""
  deriving DecidableEq, Repr

/-- A client-side network.  `capBouncer` models
`network.ircClient.network.cap.isEnabled ("bouncer")` and `hasNetwork` models
`network.ircClient.bnc.hasNetwork ()`; both are state of the external irc
client attached to the network object. -/
structure Network where
  id : Nat
  name : String := ""
  username : String := ""
  password : String := ""
  connection : Connection := {}
  netState : NetState := NetState.disconnected
  capBouncer : Bool := false
  hasNetwork : Bool := false
  hidden : Bool := false
  buffers : List Buffer := []
  deriving DecidableEq, Repr

/-- One entry of `this.networksSnapshot` (see `snapshotCurrentNetworks`). -/
structure SnapshotEntry where
  name : String
  host : String
  port : Nat
  tls : Bool
  password : String
  nick : String
  username : String
  deriving DecidableEq, Repr

/-- The change set assembled by `saveState` (the JS `tags` object); a field is
`none` when the JS object has no such property. -/
structure Tags where
  host : Option String := none
  port : Option Nat := none
  tls : Option Bool := none
  password : Option String := none
  nick : Option String := none
  user : Option String := none
  deriving DecidableEq, Repr

/-- Relay control commands issued through the controller's irc client. -/
inductive BncCommand where
  | addNetwork (name : String) (tags : Tags)
  | saveNetwork (bncName : String) (tags : Tags)
  deriving DecidableEq, Repr

/-- The `this.bnc` record (BouncerConfig).  `password` is an `Option` because
`initAndAddNetworks` can leave it `undefined` on malformed input. -/
structure BncConfig where
  enabled : Bool := false
  username : String := ""
  password : Option String := some ""
  server : String := ""
  port : Nat := 6667
  tls : Bool := false
  direct : Bool := false
  path : String := ""
  registered : Bool := false
  deriving DecidableEq, Repr

/-- The `ircClient.options` fields rewritten on `network.connecting`. -/
structure IrcOptions where
  host : String := ""
  port : Nat := 0
  tls : Bool := false
  password : String := ""
  path : String := ""
  deriving DecidableEq, Repr

/-- The provider state relevant to controller election and `saveState`:
the cached controller reference (by object identity), the state store's
network list, and the snapshot store. -/
structure ProviderState where
  cached : Option Nat
  networks : List Network
  snapshot : List (String × SnapshotEntry)
  deriving DecidableEq, Repr

/-- JS truthiness of a string-or-undefined value. -/
def truthyStr (o : Option String) : Bool :=
  match o with
  | none => false
  | some s => s ≠ ""

/-- JS truthiness of a number-or-undefined value. -/
def truthyNat (o : Option Nat) : Bool :=
  match o with
  | none => false
  | some n => n ≠ 0

/-! ### Controller Elector (`getController`, source lines 51-67) -/

/-- The scan predicate of `getController`:
`network.state === 'connected' && client.network.cap.isEnabled('bouncer')`. -/
def controllerPred (n : Network) : Bool :=
  n.netState == NetState.connected && n.capBouncer

/-- Resolve an object reference (id) against the live network list. -/
def findNetById (nets : List Network) (i : Nat) : Option Network :=
  nets.find? (fun n => n.id == i)

/-- The network object currently referenced by `this.controllerNetwork`. -/
def cachedNet (s : ProviderState) : Option Network :=
  s.cached.bind (findNetById s.networks)

/-- The scan loop of `getController`: set the cache to null, then select the
first network satisfying `controllerPred`, caching it. -/
def scanController (s : ProviderState) : Option Network × ProviderState :=
  match s.networks.find? controllerPred with
  | some n => (some n, { s with cached := some n.id })
  | none => (none, { s with cached := none })

/-- `getController ()`: return the cached controller if it is still
`connected` (the capability is not re-checked on this path!), otherwise
re-scan. -/
def getControllerP (s : ProviderState) : Option Network × ProviderState :=
  match cachedNet s with
  | some n =>
    if n.netState == NetState.connected then (some n, s) else scanController s
  | none => scanController s

/-- A network that is still connected but whose bouncer capability is gone
(e.g. after a CAP DEL), while being the cached controller. -/
def capLostNet : Network :=
  { id := 0, name := "c", netState := NetState.connected, capBouncer := false }

/-- Scenario networks of the claim: A disconnected, B connected without the
capability, C connected with it. -/
def scNetA : Network :=
  { id := 10, name := "A", netState := NetState.disconnected, capBouncer := false }

def scNetB : Network :=
  { id := 11, name := "B", netState := NetState.connected, capBouncer := false }

def scNetC : Network :=
  { id := 12, name := "C", netState := NetState.connected, capBouncer := true }

def scNetCDown : Network :=
  { scNetC with netState := NetState.disconnected }

end Kiwi

namespace Kiwi

/-- Claim C1, counterexample: the cached controller is re-validated only for
`state == connected`; the bouncer capability is not re-checked.  In a state
whose cached controller is connected but has lost the capability,
`getController` returns it, so a non-null result does not always satisfy
`capability(bouncer) == enabled`. -/
theorem getController_cached_skips_cap_check :
    (getControllerP { cached := some 0, networks := [capLostNet], snapshot := [] }).fst
        = some capLostNet
      ∧ capLostNet.capBouncer = false
      ∧ capLostNet.netState = NetState.connected := by
  refine ⟨?_, rfl, rfl⟩
  rfl

/-- Claim C1, amended: every non-null result of `getController` is connected;
whenever the cached reference does not point to a still-connected network the
result is additionally the first network in stored order that is connected
with the bouncer capability enabled (so it has the capability); the cached
controller however is returned as long as it is merely still connected,
without re-checking the capability.  The concrete scenario holds: with
networks [A(disconnected), B(connected, no cap), C(connected, cap)] the
result is C, and after C disconnects a subsequent call returns null rather
than falling back to B. -/
theorem getController_amended_spec :
    (∀ (s : ProviderState) (n : Network), (getControllerP s).fst = some n →
        n.netState = NetState.connected
          ∧ ((∀ c, cachedNet s = some c → c.netState ≠ NetState.connected) →
              n.capBouncer = true ∧ s.networks.find? controllerPred = some n))
      ∧ (getControllerP
            { cached := none, networks := [scNetA, scNetB, scNetC], snapshot := [] }).fst
          = some scNetC
      ∧ (getControllerP
            { cached := some 12, networks := [scNetA, scNetB, scNetCDown],
              snapshot := [] }).fst
          = none := by
  refine ⟨?_, rfl, rfl⟩
  intro s n h
  have hscan : ∀ (m : Network),
      (scanController s).fst = some m →
      m.netState = NetState.connected
        ∧ (m.capBouncer = true ∧ s.networks.find? controllerPred = some m) := by
    intro m hm
    unfold scanController at hm
    split at hm
    next m' hfind =>
      simp only at hm
      simp only [Option.some.injEq] at hm
      subst hm
      have hp := List.find?_some hfind
      simp only [controllerPred, Bool.and_eq_true, beq_iff_eq] at hp
      exact ⟨hp.1, hp.2, hfind⟩
    next hfind =>
      simp at hm
  unfold getControllerP at h
  split at h
  next c hc =>
    split at h
    next hcon =>
      simp only [beq_iff_eq] at hcon
      simp only [Option.some.injEq] at h
      subst h
      refine ⟨hcon, ?_⟩
      intro hnone
      exact absurd hcon (hnone c hc)
    next hcon =>
      have hr := hscan n h
      exact ⟨hr.1, fun _ => hr.2⟩
  next hc =>
    have hr := hscan n h
    exact ⟨hr.1, fun _ => hr.2⟩

/-- Witness for the amended C1 theorem at a concrete state: in the scenario
state with an empty cache the theorem yields that the elected network C is
connected and has the capability. -/
theorem getController_amended_spec_witness :
    scNetC.netState = NetState.connected ∧ scNetC.capBouncer = true := by
  have h := getController_amended_spec.1
      { cached := none, networks := [scNetA, scNetB, scNetC], snapshot := [] }
      scNetC (by rfl)
  have h2 := h.2 (fun c hc => nomatch hc)
  exact ⟨h.1, h2.1⟩

/-! ### Buffer Reconciler (`syncBncNetwork`, source lines 127-165)

`state.addBuffer` / `state.removeBuffer` live in the state store, outside
this module's source.  Modelled from the spec: `addBuffer (networkId, name)`
is find-or-create by case-insensitive name within the network (a new buffer
starts with default fields), and `removeBuffer` removes the buffer from the
network's buffer list.  `isChannel` / `isQuery` and the `Date` parsing of
`seen` are external; they are abstracted as function parameters
`isChan isQy : String → Bool` and `pt : String → Nat`. -/

/-- In-place mutation of the first list element satisfying `p` (the object
returned by a find-or-create lookup is mutated where it sits). -/
def updateFirst {α : Type} (p : α → Bool) (f : α → α) : List α → List α
  | [] => []
  | x :: xs => if p x then f x :: xs else x :: updateFirst p f xs

/-- One remote buffer entry as reported by `client.bnc.getBuffers`:
`joined` is boolean, `seen` and `topic` may be absent. -/
structure RemoteBuffer where
  name : String
  joined : Bool := false
  seen : Option String := none
  topic : Option String := none
  deriving DecidableEq, Repr

/-- Case-insensitive name comparison (`.toLowerCase()` on both sides). -/
def nameMatches (rbName nm : String) : Bool :=
  nm.toLower == rbName.toLower

/-- Whether a buffer matches a remote-buffer name case-insensitively. -/
def bufMatches (rbName : String) (b : Buffer) : Bool :=
  nameMatches rbName b.name

section Sync

variable (isChan isQy : String → Bool) (pt : String → Nat)

/-- The field updates applied to a found-or-created buffer for one remote
buffer: `enabled`/`joined` from `joined`; `last_read` from `seen` when
truthy (the `(new Date(seen)).getTime()` conversion abstracted as `pt`);
`topic` from `buffer.topic || ''`. -/
def updateBuf (rb : RemoteBuffer) (b : Buffer) : Buffer :=
  { b with
    enabled := rb.joined
    joined := rb.joined
    last_read :=
      match rb.seen with
      | some s => if s = "" then b.last_read else pt s
      | none => b.last_read
    topic :=
      match rb.topic with
      | some t => if t = "" then "" else t
      | none => "" }

/-- A freshly created buffer (the create half of `state.addBuffer`). -/
def newBufferFor (nm : String) : Buffer := { name := nm }

/-- Processing of one remote buffer: find-or-create by case-insensitive
name, then apply the field updates to the found/created buffer. -/
def applyRemote (bufs : List Buffer) (rb : RemoteBuffer) : List Buffer :=
  if bufs.any (bufMatches rb.name) then
    updateFirst (bufMatches rb.name) (updateBuf pt rb) bufs
  else
    bufs ++ [updateBuf pt rb (newBufferFor rb.name)]

/-- The add/update phase of `syncBncNetwork` over the whole remote list. -/
def updFold (bufs : List Buffer) (remote : List RemoteBuffer) : List Buffer :=
  remote.foldl (applyRemote pt) bufs

/-- The removal-phase keep-predicate on a buffer name: channel/query buffers
are kept only when present (case-insensitively) in the remote list; buffers
of any other kind are always kept. -/
def keepName (remote : List RemoteBuffer) (nm : String) : Bool :=
  if isChan nm || isQy nm then
    remote.any (fun rb => nameMatches rb.name nm)
  else true

/-- `syncBncNetwork`'s effect on a network's buffer list: the add/update
phase over the remote list, then removal of stale channel/query buffers. -/
def syncBuffers (bufs : List Buffer) (remote : List RemoteBuffer) : List Buffer :=
  (updFold pt bufs remote).filter (fun b => keepName isChan isQy remote b.name)

/-- The update that one position receives from a whole remote list: each
matching remote entry's update applied in order. -/
def chainUpd (b : Buffer) (rs : List RemoteBuffer) : Buffer :=
  rs.foldl (fun acc rb => if bufMatches rb.name acc then updateBuf pt rb acc else acc) b

/-- The pure-update step (find-and-update, no creation). -/
def uStep (bufs : List Buffer) (rb : RemoteBuffer) : List Buffer :=
  updateFirst (bufMatches rb.name) (updateBuf pt rb) bufs

/-- Folding pure updates over a remote list. -/
def uFold (bufs : List Buffer) (rs : List RemoteBuffer) : List Buffer :=
  rs.foldl (uStep pt) bufs

/-- The buffers created during `updFold`, in creation order. -/
def news : List RemoteBuffer → List Buffer → List Buffer
  | [], _ => []
  | rb :: rest, bufs =>
    if bufs.any (bufMatches rb.name) then news rest bufs
    else newBufferFor rb.name :: news rest (bufs ++ [newBufferFor rb.name])

end Sync

/-- An optional overwrite of the four mutable buffer fields; compositions of
`updateBuf` updates on a fixed position have this shape. -/
structure OW where
  e : Option Bool
  j : Option Bool
  lr : Option Nat
  tp : Option String

def OW.applyTo (o : OW) (b : Buffer) : Buffer :=
  { b with
    enabled := o.e.getD b.enabled
    joined := o.j.getD b.joined
    last_read := o.lr.getD b.last_read
    topic := o.tp.getD b.topic }

def OW.comp (o2 o1 : OW) : OW :=
  { e := o2.e.orElse fun _ => o1.e
    j := o2.j.orElse fun _ => o1.j
    lr := o2.lr.orElse fun _ => o1.lr
    tp := o2.tp.orElse fun _ => o1.tp }

/-- The overwrite performed by `updateBuf`. -/
def owOfUpd (pt : String → Nat) (rb : RemoteBuffer) : OW :=
  { e := some rb.joined
    j := some rb.joined
    lr :=
      match rb.seen with
      | some s => if s = "" then none else some (pt s)
      | none => none
    tp := some (match rb.topic with | some t => if t = "" then "" else t | none => "") }

theorem OW.applyTo_comp (o2 o1 : OW) (b : Buffer) :
    (OW.comp o2 o1).applyTo b = o2.applyTo (o1.applyTo b) := by
  cases o2 with
  | mk e2 j2 lr2 tp2 =>
    cases o1 with
    | mk e1 j1 lr1 tp1 =>
      cases e2 <;> cases j2 <;> cases lr2 <;> cases tp2 <;> rfl

theorem OW.applyTo_self (o : OW) (b : Buffer) :
    o.applyTo (o.applyTo b) = o.applyTo b := by
  cases o with
  | mk e j lr tp => cases e <;> cases j <;> cases lr <;> cases tp <;> rfl

theorem updateBuf_eq_ow (pt : String → Nat) (rb : RemoteBuffer) (b : Buffer) :
    updateBuf pt rb b = (owOfUpd pt rb).applyTo b := by
  cases hs : rb.seen with
  | none => cases ht : rb.topic <;> simp [updateBuf, owOfUpd, OW.applyTo, hs, ht]
  | some s =>
    cases ht : rb.topic with
    | none =>
      by_cases h : s = "" <;> simp [updateBuf, owOfUpd, OW.applyTo, hs, ht, h]
    | some t =>
      by_cases h : s = "" <;> by_cases h2 : t = "" <;>
        simp [updateBuf, owOfUpd, OW.applyTo, hs, ht, h, h2]

theorem updateBuf_name (pt : String → Nat) (rb : RemoteBuffer) (b : Buffer) :
    (updateBuf pt rb b).name = b.name := rfl

theorem bufMatches_updateBuf (pt : String → Nat) (nm : String) (rb : RemoteBuffer)
    (b : Buffer) : bufMatches nm (updateBuf pt rb b) = bufMatches nm b := rfl

theorem chainUpd_name (pt : String → Nat) (rs : List RemoteBuffer) (b : Buffer) :
    (chainUpd pt b rs).name = b.name := by
  induction rs generalizing b with
  | nil => rfl
  | cons rb rest ih =>
    show (chainUpd pt (if bufMatches rb.name b then updateBuf pt rb b else b) rest).name = _
    by_cases h : bufMatches rb.name b = true
    · rw [if_pos h, ih (updateBuf pt rb b), updateBuf_name]
    · rw [if_neg h, ih b]

theorem chainUpd_ow (pt : String → Nat) (rs : List RemoteBuffer) (nm : String) :
    ∃ o : OW, ∀ b : Buffer, b.name = nm → chainUpd pt b rs = o.applyTo b := by
  induction rs with
  | nil =>
    refine ⟨{ e := none, j := none, lr := none, tp := none }, fun b _ => ?_⟩
    rfl
  | cons rb rest ih =>
    obtain ⟨o, ho⟩ := ih
    by_cases h : nameMatches rb.name nm = true
    · refine ⟨o.comp (owOfUpd pt rb), fun b hb => ?_⟩
      have hb2 : bufMatches rb.name b = true := by
        unfold bufMatches; rw [hb]; exact h
      show chainUpd pt (if bufMatches rb.name b then updateBuf pt rb b else b) rest = _
      rw [if_pos hb2, ho (updateBuf pt rb b) (by rw [updateBuf_name]; exact hb),
        updateBuf_eq_ow, OW.applyTo_comp]
    · refine ⟨o, fun b hb => ?_⟩
      have hb2 : bufMatches rb.name b = false := by
        unfold bufMatches; rw [hb]; exact eq_false_of_ne_true h
      show chainUpd pt (if bufMatches rb.name b then updateBuf pt rb b else b) rest = _
      rw [hb2, if_neg (by simp), ho b hb]

theorem chainUpd_chainUpd (pt : String → Nat) (rs : List RemoteBuffer) (b : Buffer) :
    chainUpd pt (chainUpd pt b rs) rs = chainUpd pt b rs := by
  obtain ⟨o, ho⟩ := chainUpd_ow pt rs b.name
  rw [ho b rfl, ho (o.applyTo b) ?_, OW.applyTo_self]
  have := chainUpd_name pt rs b
  rw [ho b rfl] at this
  exact this

/-- The buffer names of a list, in order. -/
def bufNames (l : List Buffer) : List String := l.map Buffer.name

theorem bufNames_updateFirst (p : Buffer → Bool) (f : Buffer → Buffer)
    (hf : ∀ b, (f b).name = b.name) (l : List Buffer) :
    bufNames (updateFirst p f l) = bufNames l := by
  induction l with
  | nil => rfl
  | cons b bs ih =>
    show bufNames (if p b then f b :: bs else b :: updateFirst p f bs) = _
    by_cases h : p b = true
    · rw [if_pos h]
      show (f b).name :: bufNames bs = b.name :: bufNames bs
      rw [hf]
    · rw [if_neg (by simp [h])]
      show b.name :: bufNames (updateFirst p f bs) = b.name :: bufNames bs
      rw [ih]

theorem updateFirst_cons {α : Type} (p : α → Bool) (f : α → α) (x : α) (xs : List α) :
    updateFirst p f (x :: xs) = if p x then f x :: xs else x :: updateFirst p f xs := rfl

theorem any_bufMatches_of_names (nm : String) :
    ∀ (l1 l2 : List Buffer), bufNames l1 = bufNames l2 →
      l1.any (bufMatches nm) = l2.any (bufMatches nm) := by
  intro l1
  induction l1 with
  | nil =>
    intro l2 h
    cases l2 with
    | nil => rfl
    | cons c cs => exact absurd h (by simp [bufNames])
  | cons b bs ih =>
    intro l2 h
    cases l2 with
    | nil => exact absurd h (by simp [bufNames])
    | cons c cs =>
      simp only [bufNames, List.map_cons, List.cons.injEq] at h
      simp only [List.any_cons]
      rw [ih cs h.2]
      have hb : bufMatches nm b = bufMatches nm c := by
        unfold bufMatches
        rw [h.1]
      rw [hb]

theorem bufNames_uStep (pt : String → Nat) (bufs : List Buffer) (rb : RemoteBuffer) :
    bufNames (uStep pt bufs rb) = bufNames bufs :=
  bufNames_updateFirst _ _ (fun b => updateBuf_name pt rb b) bufs

theorem bufNames_uFold (pt : String → Nat) (rs : List RemoteBuffer) (bufs : List Buffer) :
    bufNames (uFold pt bufs rs) = bufNames bufs := by
  induction rs generalizing bufs with
  | nil => rfl
  | cons rb rest ih =>
    show bufNames (uFold pt (uStep pt bufs rb) rest) = _
    rw [ih (uStep pt bufs rb), bufNames_uStep]

theorem updateFirst_append_left {α : Type} (p : α → Bool) (f : α → α)
    (l1 l2 : List α) (h : l1.any p = true) :
    updateFirst p f (l1 ++ l2) = updateFirst p f l1 ++ l2 := by
  induction l1 with
  | nil => simp at h
  | cons x xs ih =>
    rw [List.cons_append, updateFirst_cons, updateFirst_cons]
    by_cases hx : p x = true
    · rw [if_pos hx, if_pos hx]
      rfl
    · have hx' : p x = false := eq_false_of_ne_true hx
      have hxs : xs.any p = true := by
        simp only [List.any_cons, hx', Bool.false_or] at h
        exact h
      rw [if_neg (by simp [hx']), if_neg (by simp [hx']), ih hxs]
      rfl

theorem updateFirst_append_right {α : Type} (p : α → Bool) (f : α → α)
    (l1 l2 : List α) (h : l1.any p = false) :
    updateFirst p f (l1 ++ l2) = l1 ++ updateFirst p f l2 := by
  induction l1 with
  | nil => rfl
  | cons x xs ih =>
    simp only [List.any_cons, Bool.or_eq_false_iff] at h
    rw [List.cons_append, updateFirst_cons, if_neg (by simp [h.1]), ih h.2]
    rfl

/-- Decomposition of a pure-update fold over a cons cell: the head receives
exactly the chain of its matching remote entries, and the tail receives the
non-matching ones. -/
theorem uFold_cons (pt : String → Nat) (rs : List RemoteBuffer) :
    ∀ (b : Buffer) (bs : List Buffer),
      uFold pt (b :: bs) rs
        = chainUpd pt b rs
            :: uFold pt bs (rs.filter (fun rb => !(bufMatches rb.name b))) := by
  induction rs with
  | nil => intro b bs; rfl
  | cons rb rest ih =>
    intro b bs
    show uFold pt (uStep pt (b :: bs) rb) rest = _
    by_cases h : bufMatches rb.name b = true
    · have hstep : uStep pt (b :: bs) rb = updateBuf pt rb b :: bs := by
        unfold uStep
        rw [updateFirst_cons, if_pos h]
      rw [hstep, ih (updateBuf pt rb b) bs]
      have hc : chainUpd pt b (rb :: rest) = chainUpd pt (updateBuf pt rb b) rest := by
        show chainUpd pt (if bufMatches rb.name b then updateBuf pt rb b else b) rest = _
        rw [if_pos h]
      have hf : (rest.filter (fun rb' => !(bufMatches rb'.name (updateBuf pt rb b))))
          = ((rb :: rest).filter (fun rb' => !(bufMatches rb'.name b))) := by
        have hp : (fun rb' : RemoteBuffer => !(bufMatches rb'.name (updateBuf pt rb b)))
            = (fun rb' : RemoteBuffer => !(bufMatches rb'.name b)) := by
          funext rb'
          rw [bufMatches_updateBuf]
        rw [hp, List.filter_cons]
        simp [h]
      rw [hc, hf]
    · have hb : bufMatches rb.name b = false := eq_false_of_ne_true h
      have hstep : uStep pt (b :: bs) rb = b :: uStep pt bs rb := by
        unfold uStep
        rw [updateFirst_cons, if_neg (by simp [hb])]
      rw [hstep, ih b (uStep pt bs rb)]
      have hc : chainUpd pt b (rb :: rest) = chainUpd pt b rest := by
        show chainUpd pt (if bufMatches rb.name b then updateBuf pt rb b else b) rest = _
        rw [hb, if_neg (by simp)]
      have hf : ((rb :: rest).filter (fun rb' => !(bufMatches rb'.name b)))
          = rb :: rest.filter (fun rb' => !(bufMatches rb'.name b)) := by
        rw [List.filter_cons]
        simp [hb]
      rw [hc, hf]
      show _ = chainUpd pt b rest :: uFold pt (uStep pt bs rb) (rest.filter _)
      rfl

theorem uFold_nil (pt : String → Nat) : ∀ rs : List RemoteBuffer, uFold pt [] rs = [] := by
  intro rs
  induction rs with
  | nil => rfl
  | cons rb rest ih => exact ih

theorem bufNames_append (l1 l2 : List Buffer) :
    bufNames (l1 ++ l2) = bufNames l1 ++ bufNames l2 := by
  unfold bufNames
  exact List.map_append _ _ _

theorem news_congr : ∀ (rs : List RemoteBuffer) (l1 l2 : List Buffer),
    bufNames l1 = bufNames l2 → news rs l1 = news rs l2 := by
  intro rs
  induction rs with
  | nil => intro l1 l2 _; rfl
  | cons rb rest ih =>
    intro l1 l2 h
    unfold news
    rw [any_bufMatches_of_names rb.name l1 l2 h]
    by_cases ha : l2.any (bufMatches rb.name) = true
    · rw [if_pos ha, if_pos ha]
      exact ih l1 l2 h
    · rw [if_neg ha, if_neg ha]
      have h2 : bufNames (l1 ++ [newBufferFor rb.name])
          = bufNames (l2 ++ [newBufferFor rb.name]) := by
        rw [bufNames_append, bufNames_append, h]
      rw [ih (l1 ++ [newBufferFor rb.name]) (l2 ++ [newBufferFor rb.name]) h2]

theorem newBufferFor_matches (nm : String) :
    bufMatches nm (newBufferFor nm) = true := by
  simp [bufMatches, nameMatches, newBufferFor]

theorem news_cons (rb : RemoteBuffer) (rest : List RemoteBuffer) (bufs : List Buffer) :
    news (rb :: rest) bufs
      = if bufs.any (bufMatches rb.name) then news rest bufs
        else newBufferFor rb.name :: news rest (bufs ++ [newBufferFor rb.name]) := rfl

/-- The add/update fold equals the pure-update fold on the buffer list
pre-extended with the buffers it will create. -/
theorem updFold_eq_uFold_news (pt : String → Nat) :
    ∀ (rs : List RemoteBuffer) (bufs : List Buffer),
      updFold pt bufs rs = uFold pt (bufs ++ news rs bufs) rs := by
  intro rs
  induction rs with
  | nil =>
    intro bufs
    show bufs = bufs ++ news [] bufs
    rw [show news [] bufs = [] from rfl, List.append_nil]
  | cons rb rest ih =>
    intro bufs
    show updFold pt (applyRemote pt bufs rb) rest
        = uFold pt (uStep pt (bufs ++ news (rb :: rest) bufs) rb) rest
    by_cases ha : bufs.any (bufMatches rb.name) = true
    · have h1 : applyRemote pt bufs rb = uStep pt bufs rb := by
        unfold applyRemote uStep
        rw [if_pos ha]
      have h3 : news (rb :: rest) bufs = news rest bufs := by
        rw [news_cons, if_pos ha]
      rw [h1, ih (uStep pt bufs rb), h3,
        news_congr rest (uStep pt bufs rb) bufs (bufNames_uStep pt bufs rb),
        show uStep pt (bufs ++ news rest bufs) rb = uStep pt bufs rb ++ news rest bufs from
          updateFirst_append_left _ _ _ _ ha]
    · have ha' : bufs.any (bufMatches rb.name) = false := eq_false_of_ne_true ha
      have h1 : applyRemote pt bufs rb
          = bufs ++ [updateBuf pt rb (newBufferFor rb.name)] := by
        unfold applyRemote
        rw [if_neg (by simp [ha'])]
      have h3 : news (rb :: rest) bufs
          = newBufferFor rb.name :: news rest (bufs ++ [newBufferFor rb.name]) := by
        rw [news_cons, if_neg (by simp [ha'])]
      have h5 : news rest (bufs ++ [newBufferFor rb.name])
          = news rest (bufs ++ [updateBuf pt rb (newBufferFor rb.name)]) := by
        apply news_congr
        rw [bufNames_append, bufNames_append]
        rfl
      have h6 : uStep pt
            (bufs ++ newBufferFor rb.name
              :: news rest (bufs ++ [updateBuf pt rb (newBufferFor rb.name)])) rb
          = (bufs ++ [updateBuf pt rb (newBufferFor rb.name)])
              ++ news rest (bufs ++ [updateBuf pt rb (newBufferFor rb.name)]) := by
        unfold uStep
        rw [updateFirst_append_right _ _ _ _ ha', updateFirst_cons,
          if_pos (newBufferFor_matches rb.name), List.append_assoc]
        rfl
      rw [h1, ih (bufs ++ [updateBuf pt rb (newBufferFor rb.name)]), h3, h5, h6]

theorem news_all_present : ∀ (rs : List RemoteBuffer) (bufs : List Buffer)
    (rb : RemoteBuffer), rb ∈ rs →
    (bufs ++ news rs bufs).any (bufMatches rb.name) = true := by
  intro rs
  induction rs with
  | nil =>
    intro bufs rb h
    exact absurd h (List.not_mem_nil rb)
  | cons rb0 rest ih =>
    intro bufs rb h
    by_cases ha : bufs.any (bufMatches rb0.name) = true
    · have hnews : news (rb0 :: rest) bufs = news rest bufs := by
        rw [news_cons, if_pos ha]
      rw [hnews]
      rcases List.mem_cons.mp h with h1 | h1
      · subst h1
        simp [List.any_append, ha]
      · exact ih bufs rb h1
    · have ha' : bufs.any (bufMatches rb0.name) = false := eq_false_of_ne_true ha
      have hnews : news (rb0 :: rest) bufs
          = newBufferFor rb0.name :: news rest (bufs ++ [newBufferFor rb0.name]) := by
        rw [news_cons, if_neg (by simp [ha'])]
      rw [hnews]
      rcases List.mem_cons.mp h with h1 | h1
      · subst h1
        simp [List.any_append, List.any_cons, newBufferFor_matches]
      · have hr := ih (bufs ++ [newBufferFor rb0.name]) rb h1
        rw [List.append_assoc] at hr
        simpa using hr

theorem news_nil_of_present : ∀ (rs : List RemoteBuffer) (bufs : List Buffer),
    (∀ rb ∈ rs, bufs.any (bufMatches rb.name) = true) → news rs bufs = [] := by
  intro rs
  induction rs with
  | nil => intro bufs _; rfl
  | cons rb rest ih =>
    intro bufs h
    have ha := h rb (List.mem_cons_self rb rest)
    rw [news_cons, if_pos ha]
    exact ih bufs (fun rb' h' => h rb' (List.mem_cons_of_mem rb h'))

/-- A pure-update fold fixes any of its own outputs filtered by a keep
predicate that never discards a name matched by the remote list. -/
theorem uFold_filter_fix (pt : String → Nat) (q : String → Bool) :
    ∀ (bs : List Buffer) (rs : List RemoteBuffer),
      (∀ nm rb, rb ∈ rs → q nm = false → nameMatches rb.name nm = false) →
      uFold pt ((uFold pt bs rs).filter (fun b => q b.name)) rs
        = (uFold pt bs rs).filter (fun b => q b.name) := by
  intro bs
  induction bs with
  | nil =>
    intro rs _
    rw [uFold_nil pt rs, List.filter_nil, uFold_nil pt rs]
  | cons b bs ih =>
    intro rs H
    have H1 : ∀ nm rb, rb ∈ rs.filter (fun rb' => !(bufMatches rb'.name b)) →
        q nm = false → nameMatches rb.name nm = false := by
      intro nm rb hm hq
      exact H nm rb (List.mem_of_mem_filter hm) hq
    rw [uFold_cons pt rs b bs]
    by_cases hq : q b.name = true
    · have hfil : ((chainUpd pt b rs)
            :: uFold pt bs (rs.filter (fun rb => !(bufMatches rb.name b)))).filter
              (fun b' => q b'.name)
          = (chainUpd pt b rs)
            :: (uFold pt bs (rs.filter (fun rb => !(bufMatches rb.name b)))).filter
              (fun b' => q b'.name) := by
        rw [List.filter_cons]
        simp [chainUpd_name, hq]
      rw [hfil, uFold_cons pt rs (chainUpd pt b rs) _]
      have hpredeq : (fun rb : RemoteBuffer => !(bufMatches rb.name (chainUpd pt b rs)))
          = (fun rb : RemoteBuffer => !(bufMatches rb.name b)) := by
        funext rb
        unfold bufMatches
        rw [chainUpd_name]
      rw [chainUpd_chainUpd pt rs b, hpredeq,
        ih (rs.filter (fun rb => !(bufMatches rb.name b))) H1]
    · have hq' : q b.name = false := eq_false_of_ne_true hq
      have hrs1 : rs.filter (fun rb => !(bufMatches rb.name b)) = rs := by
        apply List.filter_eq_self.mpr
        intro rb hm
        have hn := H b.name rb hm hq'
        unfold bufMatches
        simp [hn]
      rw [hrs1]
      have hfil : ((chainUpd pt b rs) :: uFold pt bs rs).filter (fun b' => q b'.name)
          = (uFold pt bs rs).filter (fun b' => q b'.name) := by
        rw [List.filter_cons]
        simp [chainUpd_name, hq']
      rw [hfil, ih rs H]

theorem keepName_matches (isChan isQy : String → Bool) (rs : List RemoteBuffer)
    (rb : RemoteBuffer) (hm : rb ∈ rs) (b : Buffer)
    (hb : bufMatches rb.name b = true) :
    keepName isChan isQy rs b.name = true := by
  unfold keepName
  by_cases hcq : (isChan b.name || isQy b.name) = true
  · rw [if_pos hcq]
    apply List.any_eq_true.mpr
    exact ⟨rb, hm, hb⟩
  · rw [if_neg hcq]

theorem keepName_false_no_match (isChan isQy : String → Bool) (rs : List RemoteBuffer) :
    ∀ nm rb, rb ∈ rs → keepName isChan isQy rs nm = false →
      nameMatches rb.name nm = false := by
  intro nm rb hm hq
  unfold keepName at hq
  by_cases hcq : (isChan nm || isQy nm) = true
  · rw [if_pos hcq] at hq
    rw [List.any_eq_false] at hq
    exact eq_false_of_ne_true (hq rb hm)
  · rw [if_neg hcq] at hq
    exact absurd hq (by simp)

theorem present_in_sync (isChan isQy : String → Bool) (pt : String → Nat)
    (bufs : List Buffer) (rs : List RemoteBuffer) (rb : RemoteBuffer) (hm : rb ∈ rs) :
    (syncBuffers isChan isQy pt bufs rs).any (bufMatches rb.name) = true := by
  unfold syncBuffers
  rw [updFold_eq_uFold_news pt rs bufs]
  have hB : (bufs ++ news rs bufs).any (bufMatches rb.name) = true :=
    news_all_present rs bufs rb hm
  have hU : (uFold pt (bufs ++ news rs bufs) rs).any (bufMatches rb.name) = true := by
    rw [any_bufMatches_of_names rb.name _ (bufs ++ news rs bufs)
      (bufNames_uFold pt rs _)]
    exact hB
  obtain ⟨b, hbmem, hbp⟩ := List.any_eq_true.mp hU
  apply List.any_eq_true.mpr
  exact ⟨b, List.mem_filter.mpr ⟨hbmem, keepName_matches isChan isQy rs rb hm b hbp⟩, hbp⟩

/-! ### Snapshot Store & Save Scheduler
(`snapshotCurrentNetworks`, source lines 196-214; `saveState`, lines 218-275) -/

/-- JS strict `!==` between a present string field and a possibly-`undefined`
snapshot field (a string is never `===` `undefined`). -/
def diffS (cur : String) (old : Option String) : Bool :=
  match old with
  | none => true
  | some v => cur ≠ v

def diffN (cur : Nat) (old : Option Nat) : Bool :=
  match old with
  | none => true
  | some v => cur ≠ v

def diffB (cur : Bool) (old : Option Bool) : Bool :=
  match old with
  | none => true
  | some v => cur ≠ v

/-- The `tags` change set assembled by `saveState` for one network: a field
is included exactly when it strictly differs from the snapshot value. -/
def computeTags (snap : Option SnapshotEntry) (net : Network) : Tags :=
  { host :=
      if diffS net.connection.server (snap.map SnapshotEntry.host) then
        some net.connection.server
      else none
    port :=
      if diffN net.connection.port (snap.map SnapshotEntry.port) then
        some net.connection.port
      else none
    tls :=
      if diffB net.connection.tls (snap.map SnapshotEntry.tls) then
        some net.connection.tls
      else none
    password :=
      if diffS net.password (snap.map SnapshotEntry.password) then
        some net.password
      else none
    nick :=
      if diffS net.connection.nick (snap.map SnapshotEntry.nick) then
        some net.connection.nick
      else none
    user :=
      if diffS net.username (snap.map SnapshotEntry.username) then
        some net.username
      else none }

/-- Lookup in the snapshot store (`this.networksSnapshot[bncName]`). -/
def lookupSnap (store : List (String × SnapshotEntry)) (k : String) :
    Option SnapshotEntry :=
  (store.find? (fun p => p.fst == k)).map Prod.snd

/-- The (possibly `undefined`) `snapshot.name`. -/
def snapNameOf (snap : Option SnapshotEntry) : Option String :=
  snap.map SnapshotEntry.name

/-- `(net.id == ctl.id && !net.hasNetwork)`: the skip test
`this.getController() === network && !network.ircClient.bnc.hasNetwork()`. -/
theorem skip_cond_false (ctl net : Network)
    (hskip : ¬(net.id = ctl.id ∧ net.hasNetwork = false)) :
    (net.id == ctl.id && !net.hasNetwork) = false := by
  by_cases h1 : net.id = ctl.id
  · have h2 : net.hasNetwork = true := by
      by_contra h2
      exact hskip ⟨h1, eq_false_of_ne_true h2⟩
    simp [h1, h2]
  · simp [h1]

/-- The per-network body of `saveState`'s forEach: possibly mutates the
network (assigning `connection.bncname := name` on creation) and issues at
most one relay command. -/
def saveNet (controller : Network) (store : List (String × SnapshotEntry))
    (net : Network) : Network × Option BncCommand :=
  if net.id == controller.id && !net.hasNetwork then (net, none)
  else if !(truthyStr (snapNameOf (lookupSnap store net.connection.bncname)))
      && truthyStr (computeTags (lookupSnap store net.connection.bncname) net).host
      && truthyNat (computeTags (lookupSnap store net.connection.bncname) net).port
      && truthyStr (computeTags (lookupSnap store net.connection.bncname) net).nick then
    ({ net with connection := { net.connection with bncname := net.name } },
      some (BncCommand.addNetwork net.name
        (computeTags (lookupSnap store net.connection.bncname) net)))
  else if truthyStr (snapNameOf (lookupSnap store net.connection.bncname)) then
    (net, some (BncCommand.saveNetwork net.connection.bncname
      (computeTags (lookupSnap store net.connection.bncname) net)))
  else
    (net, none)

/-- One snapshot entry captured from a network's current parameters. -/
def snapEntryOf (net : Network) : SnapshotEntry :=
  { name := net.connection.bncname
    host := net.connection.server
    port := net.connection.port
    tls := net.connection.tls
    password := net.password
    nick := net.connection.nick
    username := net.username }

/-- JS object assignment `store[k] = v`: replace the value at an existing
key in place, else append the key. -/
def snapInsert (store : List (String × SnapshotEntry)) (k : String)
    (v : SnapshotEntry) : List (String × SnapshotEntry) :=
  if store.any (fun p => p.fst == k) then
    updateFirst (fun p => p.fst == k) (fun _ => (k, v)) store
  else store ++ [(k, v)]

/-- `snapshotCurrentNetworks`: rebuild the store wholesale with one entry per
network with a non-empty `bncname`. -/
def snapshotCurrentNetworks (nets : List Network) : List (String × SnapshotEntry) :=
  nets.foldl
    (fun store net =>
      if net.connection.bncname = "" then store
      else snapInsert store net.connection.bncname (snapEntryOf net))
    []

/-- `saveState`: elect a controller (log and abort if none), run the
per-network body over all networks collecting the issued commands, then
refresh the snapshot store from the resulting networks. -/
def saveState (s : ProviderState) : ProviderState × List BncCommand :=
  match getControllerP s with
  | (none, s1) => (s1, [])
  | (some ctl, s1) =>
    ({ cached := s1.cached
       networks := s1.networks.map (fun n => (saveNet ctl s1.snapshot n).fst)
       snapshot := snapshotCurrentNetworks
         (s1.networks.map (fun n => (saveNet ctl s1.snapshot n).fst)) },
      s1.networks.filterMap (fun n => (saveNet ctl s1.snapshot n).snd))

theorem getControllerP_networks (s : ProviderState) :
    (getControllerP s).snd.networks = s.networks := by
  unfold getControllerP
  split
  · split
    · rfl
    · unfold scanController
      split <;> rfl
  · unfold scanController
    split <;> rfl

theorem getControllerP_snapshot (s : ProviderState) :
    (getControllerP s).snd.snapshot = s.snapshot := by
  unfold getControllerP
  split
  · split
    · rfl
    · unfold scanController
      split <;> rfl
  · unfold scanController
    split <;> rfl

/-- Claim C4: Buffer Reconciliation is idempotent.  For every buffer list and
every remote buffer list, running `syncBncNetwork`'s reconciliation a second
time with the same remote list yields exactly the same buffer list (so no
buffer's `enabled`/`joined`/`last_read`/`topic` field changes and no buffer
is added or removed), for any external channel/query classification and any
`Date` parsing of `seen`. -/
theorem syncBuffers_idempotent (isChan isQy : String → Bool) (pt : String → Nat)
    (bufs : List Buffer) (rs : List RemoteBuffer) :
    syncBuffers isChan isQy pt (syncBuffers isChan isQy pt bufs rs) rs
      = syncBuffers isChan isQy pt bufs rs := by
  have hpres : ∀ rb ∈ rs,
      (syncBuffers isChan isQy pt bufs rs).any (bufMatches rb.name) = true :=
    fun rb hm => present_in_sync isChan isQy pt bufs rs rb hm
  show (updFold pt (syncBuffers isChan isQy pt bufs rs) rs).filter _ = _
  rw [updFold_eq_uFold_news pt rs (syncBuffers isChan isQy pt bufs rs),
    news_nil_of_present rs _ hpres, List.append_nil]
  have hS : syncBuffers isChan isQy pt bufs rs
      = (uFold pt (bufs ++ news rs bufs) rs).filter
          (fun b => keepName isChan isQy rs b.name) := by
    unfold syncBuffers
    rw [updFold_eq_uFold_news pt rs bufs]
  rw [hS, uFold_filter_fix pt (keepName isChan isQy rs) (bufs ++ news rs bufs) rs
    (keepName_false_no_match isChan isQy rs)]
  rw [List.filter_filter]
  apply List.filter_congr
  intro b _
  exact Bool.and_self _

/-- Claim C5: after reconciliation, (a) every buffer of kind channel or query
in the resulting buffer list has its name present case-insensitively in the
remote list (so every stale channel/query buffer has been removed), and
(b) every original buffer of any other kind is never removed — a buffer with
its exact name is still present in the result, whatever the remote list. -/
theorem syncBuffers_removal_spec (isChan isQy : String → Bool) (pt : String → Nat)
    (bufs : List Buffer) (rs : List RemoteBuffer) :
    (∀ b, b ∈ syncBuffers isChan isQy pt bufs rs →
        (isChan b.name || isQy b.name) = true →
        rs.any (fun rb => nameMatches rb.name b.name) = true)
      ∧ (∀ b, b ∈ bufs → (isChan b.name || isQy b.name) = false →
          b.name ∈ bufNames (syncBuffers isChan isQy pt bufs rs)) := by
  constructor
  · intro b hb hcq
    unfold syncBuffers at hb
    have hk := (List.mem_filter.mp hb).2
    unfold keepName at hk
    rw [if_pos hcq] at hk
    exact hk
  · intro b hb hcq
    have h1 : b.name ∈ bufNames (updFold pt bufs rs) := by
      rw [updFold_eq_uFold_news pt rs bufs, bufNames_uFold, bufNames_append]
      exact List.mem_append_left _ (List.mem_map.mpr ⟨b, hb, rfl⟩)
    obtain ⟨b', hb'mem, hb'name⟩ := List.mem_map.mp h1
    have hkeep : keepName isChan isQy rs b'.name = true := by
      unfold keepName
      rw [hb'name, if_neg (by simp [hcq])]
    unfold syncBuffers
    exact List.mem_map.mpr ⟨b', List.mem_filter.mpr ⟨hb'mem, hkeep⟩, hb'name⟩

/-- Witness for C5 at a concrete input: a buffer of non-channel/non-query
kind survives reconciliation against a remote list not mentioning it. -/
theorem syncBuffers_removal_spec_witness :
    "x" ∈ bufNames (syncBuffers (fun _ => false) (fun _ => false) (fun _ => 0)
      [{ name := "x" }] [{ name := "y" }]) := by
  exact (syncBuffers_removal_spec (fun _ => false) (fun _ => false) (fun _ => 0)
    [{ name := "x" }] [{ name := "y" }]).2 { name := "x" }
    (List.mem_singleton.mpr rfl) rfl

/-- Claim C6: when no controller network is available, `saveState` aborts
before doing anything else: no command is issued, no network is modified,
and the snapshot store is left exactly unchanged. -/
theorem saveState_no_controller_noop (s : ProviderState)
    (h : (getControllerP s).fst = none) :
    (saveState s).snd = [] ∧ (saveState s).fst.networks = s.networks
      ∧ (saveState s).fst.snapshot = s.snapshot := by
  unfold saveState
  cases hg : getControllerP s with
  | mk fst s1 =>
    have h1 : s1.networks = s.networks := by
      have hx := getControllerP_networks s
      rw [hg] at hx
      exact hx
    have h2 : s1.snapshot = s.snapshot := by
      have hx := getControllerP_snapshot s
      rw [hg] at hx
      exact hx
    rw [hg] at h
    cases fst with
    | none => exact ⟨rfl, h1, h2⟩
    | some ctl => exact absurd h (by simp)

/-- Witness for C6 at a concrete state with no connected network. -/
theorem saveState_no_controller_noop_witness :
    (saveState { cached := none, networks := [], snapshot := [] }).snd = []
      ∧ (saveState { cached := none, networks := [], snapshot := [] }).fst.networks = []
      ∧ (saveState { cached := none, networks := [], snapshot := [] }).fst.snapshot
          = [] :=
  saveState_no_controller_noop { cached := none, networks := [], snapshot := [] } rfl

/-- The update branch of `saveNet`: with a genuine prior snapshot (non-empty
name) and the skip test failing, exactly one `saveNetwork` command carrying
the computed change set is produced. -/
theorem saveNet_update (ctl : Network) (store : List (String × SnapshotEntry))
    (net : Network) (snap : SnapshotEntry)
    (hsnap : lookupSnap store net.connection.bncname = some snap)
    (hname : snap.name ≠ "")
    (hskip : ¬(net.id = ctl.id ∧ net.hasNetwork = false)) :
    (saveNet ctl store net).snd
      = some (BncCommand.saveNetwork net.connection.bncname
          (computeTags (some snap) net)) := by
  have hcond := skip_cond_false ctl net hskip
  have htr : truthyStr (snapNameOf (some snap)) = true := by
    simp [snapNameOf, truthyStr, hname]
  unfold saveNet
  rw [hsnap]
  simp [hcond, htr]

/-- Claim C2: for every network with a prior snapshot entry under its
`bncname` (and not skipped as the controller's bare connection), `saveState`
issues an update command whose change set contains, for each of
host/port/tls/password/nick/user, exactly the current value when it differs
from the snapshot value under strict inequality, and nothing otherwise. -/
theorem saveState_update_sends_exact_diff (s : ProviderState) (ctl net : Network)
    (snap : SnapshotEntry)
    (hctl : (getControllerP s).fst = some ctl)
    (hmem : net ∈ s.networks)
    (hsnap : lookupSnap s.snapshot net.connection.bncname = some snap)
    (hname : snap.name ≠ "")
    (hskip : ¬(net.id = ctl.id ∧ net.hasNetwork = false)) :
    BncCommand.saveNetwork net.connection.bncname (computeTags (some snap) net)
        ∈ (saveState s).snd
      ∧ computeTags (some snap) net
          = { host :=
                if net.connection.server = snap.host then none
                else some net.connection.server
              port :=
                if net.connection.port = snap.port then none
                else some net.connection.port
              tls :=
                if net.connection.tls = snap.tls then none
                else some net.connection.tls
              password :=
                if net.password = snap.password then none else some net.password
              nick :=
                if net.connection.nick = snap.nick then none
                else some net.connection.nick
              user :=
                if net.username = snap.username then none else some net.username } := by
  refine ⟨?_, by simp [computeTags, diffS, diffN, diffB, ite_not]⟩
  unfold saveState
  cases hg : getControllerP s with
  | mk fst s1 =>
    have h1 : s1.networks = s.networks := by
      have hx := getControllerP_networks s
      rw [hg] at hx
      exact hx
    have h2 : s1.snapshot = s.snapshot := by
      have hx := getControllerP_snapshot s
      rw [hg] at hx
      exact hx
    rw [hg] at hctl
    cases fst with
    | none => exact absurd hctl (by simp)
    | some ctl2 =>
      have hc2 : ctl2 = ctl := by simpa using hctl
      subst hc2
      show _ ∈ s1.networks.filterMap (fun n => (saveNet ctl2 s1.snapshot n).snd)
      rw [h1, h2]
      exact List.mem_filterMap.mpr
        ⟨net, hmem, saveNet_update ctl2 s.snapshot net snap hsnap hname hskip⟩

/-- Concrete state for the C2 witness: a controller plus a network whose
snapshot differs only in `nick` (\"alice\" → \"bob\"). -/
def wtCtl : Network :=
  { id := 0, name := "ctl", netState := NetState.connected, capBouncer := true,
    hasNetwork := true, connection := { bncname := "ctl" } }

def wtNet : Network :=
  { id := 1, name := "mynet",
    connection :=
      { server := "irc.example.org", port := 6667, nick := "bob", bncname := "mynet" } }

def wtSnap : SnapshotEntry :=
  { name := "mynet", host := "irc.example.org", port := 6667, tls := false,
    password := "", nick := "alice", username := "" }

def wtState : ProviderState :=
  { cached := none, networks := [wtCtl, wtNet], snapshot := [("mynet", wtSnap)] }

/-- Witness for C2: in the concrete state only the changed `nick` is sent. -/
theorem saveState_update_sends_exact_diff_witness :
    BncCommand.saveNetwork "mynet" { nick := some "bob" } ∈ (saveState wtState).snd := by
  have h := saveState_update_sends_exact_diff wtState wtCtl wtNet wtSnap
    (by rfl) (by simp [wtState]) (by rfl) (by decide) (by decide)
  have he : computeTags (some wtSnap) wtNet = { nick := some "bob" } := by decide
  have hm := h.1
  rw [he] at hm
  exact hm

/-- Claim C3: the create-network gating of `saveState` for one network that
is not skipped.  With `snap` the prior snapshot lookup and `tags` the
computed change set: (a) a create-network command is produced exactly when
the snapshot has no (truthy) name and the change set carries truthy values
for all three of host, port and nick; (b) in that case exactly one command
is issued — the create command with the full change set — and the network's
`connection.bncname` is assigned its display name; (c) with no prior
snapshot name and a non-truthy nick entry, no command at all is issued and
the network is left unchanged (silently skipped). -/
theorem saveNet_create_gating (ctl : Network) (store : List (String × SnapshotEntry))
    (net : Network)
    (hskip : ¬(net.id = ctl.id ∧ net.hasNetwork = false)) :
    ∀ snap tags, snap = lookupSnap store net.connection.bncname →
      tags = computeTags snap net →
      ((∃ t, (saveNet ctl store net).snd = some (BncCommand.addNetwork net.name t))
          ↔ (truthyStr (snapNameOf snap) = false ∧ truthyStr tags.host = true
              ∧ truthyNat tags.port = true ∧ truthyStr tags.nick = true))
        ∧ ((truthyStr (snapNameOf snap) = false ∧ truthyStr tags.host = true
              ∧ truthyNat tags.port = true ∧ truthyStr tags.nick = true) →
            (saveNet ctl store net).snd = some (BncCommand.addNetwork net.name tags)
              ∧ (saveNet ctl store net).fst.connection.bncname = net.name)
        ∧ ((truthyStr (snapNameOf snap) = false ∧ truthyStr tags.nick = false) →
            (saveNet ctl store net).snd = none ∧ (saveNet ctl store net).fst = net) := by
  intro snap tags hsnapdef htagsdef
  have hcond := skip_cond_false ctl net hskip
  have hsn : saveNet ctl store net
      = (if !(truthyStr (snapNameOf snap)) && truthyStr tags.host
            && truthyNat tags.port && truthyStr tags.nick then
          ({ net with connection := { net.connection with bncname := net.name } },
            some (BncCommand.addNetwork net.name tags))
        else if truthyStr (snapNameOf snap) then
          (net, some (BncCommand.saveNetwork net.connection.bncname tags))
        else (net, none)) := by
    unfold saveNet
    rw [hcond, ← hsnapdef, ← htagsdef]
    simp only [Bool.false_eq_true, if_false]
  by_cases hname : truthyStr (snapNameOf snap) = true
  · rw [hsn, if_neg (by simp [hname]), if_pos hname]
    refine ⟨?_, ?_, ?_⟩
    · constructor
      · intro ⟨t, ht⟩
        exact absurd ht (by simp)
      · intro hc
        exact absurd hname (by simp [hc.1])
    · intro hc
      exact absurd hname (by simp [hc.1])
    · intro hc
      exact absurd hname (by simp [hc.1])
  · have hname' : truthyStr (snapNameOf snap) = false := eq_false_of_ne_true hname
    by_cases hall : truthyStr tags.host = true ∧ truthyNat tags.port = true
        ∧ truthyStr tags.nick = true
    · rw [hsn, if_pos (by simp [hname', hall.1, hall.2.1, hall.2.2])]
      refine ⟨?_, ?_, ?_⟩
      · constructor
        · intro _
          exact ⟨hname', hall.1, hall.2.1, hall.2.2⟩
        · intro _
          exact ⟨tags, rfl⟩
      · intro _
        exact ⟨rfl, rfl⟩
      · intro hc
        exact absurd hall.2.2 (by simp [hc.2])
    · have hnotall : (!(truthyStr (snapNameOf snap)) && truthyStr tags.host
          && truthyNat tags.port && truthyStr tags.nick) = false := by
        by_cases hh : truthyStr tags.host = true
        · by_cases hp : truthyNat tags.port = true
          · have hn : truthyStr tags.nick = false := by
              by_contra hn
              refine hall ⟨hh, hp, ?_⟩
              revert hn
              cases truthyStr tags.nick <;> simp
            simp [hn]
          · simp [eq_false_of_ne_true hp]
        · simp [eq_false_of_ne_true hh]
      rw [hsn, if_neg (by simp [hnotall]), if_neg (by simp [hname'])]
      refine ⟨?_, ?_, ?_⟩
      · constructor
        · intro ⟨t, ht⟩
          exact absurd ht (by simp)
        · intro hc
          exact absurd ⟨hc.2.1, hc.2.2.1, hc.2.2.2⟩ hall
      · intro hc
        exact absurd ⟨hc.2.1, hc.2.2.1, hc.2.2.2⟩ hall
      · intro _
        exact ⟨rfl, rfl⟩

/-! ### Connection Rewriter (first `network.connecting` handler, lines 291-310) -/

/-- The first `network.connecting` handler: when relaying is enabled and
rewriting is active, overwrite the client options' host/port/tls from the
BouncerConfig, set the composite password when a relay password is
configured, set `connection.direct` and the options' `path`. -/
def rewriteConnecting (bnc : BncConfig) (rewriteConnections : Bool)
    (net : Network) (opts : IrcOptions) : IrcOptions × Network :=
  if bnc.enabled && rewriteConnections then
    ({ host := bnc.server
       port := bnc.port
       tls := bnc.tls
       password :=
         if truthyStr bnc.password then
           bnc.username ++ "/" ++ net.connection.bncname ++ ":" ++ bnc.password.getD ""
         else opts.password
       path := bnc.path },
      { net with connection := { net.connection with direct := bnc.direct } })
  else (opts, net)

/-- Claim C7: on `network.connecting` with relaying enabled and
rewrite-on-connect active, the handler overwrites the transport
host/port/tls with the relay address, overwrites `direct` and `path` from
the BouncerConfig, and sets the outgoing password to
`"<bnc_username>/<bncname>:<bnc_password>"` exactly when a relay password is
configured (otherwise the password is left as it was). -/
theorem rewriteConnecting_spec (bnc : BncConfig) (rw : Bool) (net : Network)
    (opts : IrcOptions) (hen : bnc.enabled = true) (hrw : rw = true) :
    (rewriteConnecting bnc rw net opts).fst.host = bnc.server
      ∧ (rewriteConnecting bnc rw net opts).fst.port = bnc.port
      ∧ (rewriteConnecting bnc rw net opts).fst.tls = bnc.tls
      ∧ (rewriteConnecting bnc rw net opts).fst.path = bnc.path
      ∧ (rewriteConnecting bnc rw net opts).snd
          = { net with connection := { net.connection with direct := bnc.direct } }
      ∧ (truthyStr bnc.password = true →
          (rewriteConnecting bnc rw net opts).fst.password
            = bnc.username ++ "/" ++ net.connection.bncname ++ ":"
                ++ bnc.password.getD "")
      ∧ (truthyStr bnc.password = false →
          (rewriteConnecting bnc rw net opts).fst.password = opts.password) := by
  unfold rewriteConnecting
  rw [hen, hrw]
  by_cases hp : truthyStr bnc.password = true
  · simp [hp]
  · simp [eq_false_of_ne_true hp]

/-- Concrete BouncerConfig for the C7 witness. -/
def wtBnc : BncConfig :=
  { enabled := true, username := "u", password := some "pw", server := "bnc.example.org",
    port := 1337, tls := true, direct := true, path := "/ws" }

/-- Witness for C7 at a concrete configuration and network. -/
theorem rewriteConnecting_spec_witness :
    (rewriteConnecting wtBnc true wtNet {}).fst.host = "bnc.example.org"
      ∧ (rewriteConnecting wtBnc true wtNet {}).fst.password = "u/mynet:pw" := by
  have h := rewriteConnecting_spec wtBnc true wtNet {} rfl rfl
  refine ⟨h.1, ?_⟩
  rw [h.2.2.2.2.2.1 (by decide)]
  decide

/-! ### Login credential derivation (`initAndAddNetworks`, lines 111-121) -/

/-- JS `String.prototype.split` with a single-character separator, on the
character list of the string. -/
def splitOnChar (c : Char) : List Char → List (List Char)
  | [] => [[]]
  | x :: xs =>
    match splitOnChar c xs with
    | [] => [[x]]
    | y :: ys => if x = c then [] :: y :: ys else (x :: y) :: ys

/-- JS `s.split(c)` for a one-character separator. -/
def jsSplit (c : Char) (s : String) : List String :=
  (splitOnChar c s.toList).map (fun l => String.mk l)

/-- Lines 112-113: `let [username, password] = network.password.split(':');
username = username.split('/')[0];`.  The second component is `undefined`
(`none`) when the login password contains no `:`. -/
def deriveBncCreds (loginPassword : String) : String × Option String :=
  ((jsSplit '/' ((jsSplit ':' loginPassword).headD "")).headD "",
    (jsSplit ':' loginPassword)[1]?)

/-- Lines 112-121: store the derived credentials and the controller
network's connection parameters into the BouncerConfig. -/
def initBncCreds (bnc : BncConfig) (net : Network) : BncConfig :=
  { bnc with
    username := (deriveBncCreds net.password).fst
    password := (deriveBncCreds net.password).snd
    server := net.connection.server
    port := net.connection.port
    tls := net.connection.tls
    direct := net.connection.direct
    path := net.connection.path
    enabled := true }

theorem splitOnChar_ne_nil (c : Char) (l : List Char) : splitOnChar c l ≠ [] := by
  cases l with
  | nil => simp [splitOnChar]
  | cons x xs =>
    unfold splitOnChar
    cases splitOnChar c xs with
    | nil => simp
    | cons y ys =>
      by_cases h : x = c
      · simp [h]
      · simp [h]

theorem splitOnChar_not_mem (c : Char) (l : List Char) (h : c ∉ l) :
    splitOnChar c l = [l] := by
  induction l with
  | nil => rfl
  | cons x xs ih =>
    have hx : ¬(x = c) := fun he => h (he ▸ List.mem_cons_self x xs)
    have hxs : c ∉ xs := fun hm => h (List.mem_cons_of_mem x hm)
    unfold splitOnChar
    rw [ih hxs]
    simp [hx]

theorem splitOnChar_cons (c x : Char) (xs : List Char) :
    splitOnChar c (x :: xs)
      = match splitOnChar c xs with
        | [] => [[x]]
        | y :: ys => if x = c then [] :: y :: ys else (x :: y) :: ys := rfl

theorem splitOnChar_append (c : Char) (l1 l2 : List Char) (h : c ∉ l1) :
    splitOnChar c (l1 ++ c :: l2) = l1 :: splitOnChar c l2 := by
  induction l1 with
  | nil =>
    show splitOnChar c (c :: l2) = [] :: splitOnChar c l2
    rw [splitOnChar_cons]
    cases hs : splitOnChar c l2 with
    | nil => exact absurd hs (splitOnChar_ne_nil c l2)
    | cons y ys => simp
  | cons x xs ih =>
    have hx : ¬(x = c) := fun he => h (he ▸ List.mem_cons_self x xs)
    have hxs : c ∉ xs := fun hm => h (List.mem_cons_of_mem x hm)
    show splitOnChar c (x :: (xs ++ c :: l2)) = (x :: xs) :: splitOnChar c l2
    rw [splitOnChar_cons, ih hxs]
    simp [hx]

theorem toList_append (s t : String) : (s ++ t).toList = s.toList ++ t.toList := rfl

theorem mk_toList (s : String) : String.mk s.toList = s := rfl

/-- Claim C8, counterexample: the login password `"alice/net"` is malformed
(it contains no `:`), yet the derivation sets the relay username to
`"alice"`, not to the empty string; the password component is `undefined`. -/
theorem deriveBncCreds_malformed_not_cleared :
    ((':' : Char) ∉ "alice/net".toList)
      ∧ (initBncCreds {} { id := 5, password := "alice/net" }).username = "alice"
      ∧ (initBncCreds {} { id := 5, password := "alice/net" }).username ≠ ""
      ∧ (initBncCreds {} { id := 5, password := "alice/net" }).password = none := by
  refine ⟨by decide, by decide, by decide, by decide⟩

/-- Claim C8, amended: the derivation is a total function (the sequence
cannot raise).  For a well-formed login password
`"<realuser>/<netname>:<secret>"` (no `/` or `:` in `<realuser>`, no `:` in
`<netname>` or `<secret>`), BouncerConfig.username becomes `<realuser>` and
BouncerConfig.password becomes `<secret>`.  For a login password missing the
`:` separator, the relay password field is left unset (`undefined`, falsy),
while the username field receives the text of the whole password up to its
first `/` — it is not cleared to the empty string. -/
theorem deriveBncCreds_amended_spec :
    (∀ (bnc : BncConfig) (net : Network) (u n s : String),
        ('/' : Char) ∉ u.toList → (':' : Char) ∉ u.toList →
        (':' : Char) ∉ n.toList → (':' : Char) ∉ s.toList →
        net.password = u ++ "/" ++ n ++ ":" ++ s →
        (initBncCreds bnc net).username = u
          ∧ (initBncCreds bnc net).password = some s)
      ∧ (∀ (bnc : BncConfig) (net : Network), (':' : Char) ∉ net.password.toList →
          (initBncCreds bnc net).password = none) := by
  have hsplit : ∀ (u n s : String),
      ('/' : Char) ∉ u.toList → (':' : Char) ∉ u.toList →
      (':' : Char) ∉ n.toList → (':' : Char) ∉ s.toList →
      deriveBncCreds (u ++ "/" ++ n ++ ":" ++ s) = (u, some s) := by
    intro u n s hu1 hu2 hn hs
    have hlist : (u ++ "/" ++ n ++ ":" ++ s).toList
        = (u.toList ++ '/' :: n.toList) ++ ':' :: s.toList := by
      rw [toList_append, toList_append, toList_append]
      show u.toList ++ ['/'] ++ n.toList ++ [':'] ++ s.toList = _
      simp [List.append_assoc]
    have hnc : (':' : Char) ∉ (u.toList ++ '/' :: n.toList) := by
      intro hm
      rcases List.mem_append.mp hm with hm | hm
      · exact hu2 hm
      · rcases List.mem_cons.mp hm with hm | hm
        · exact absurd hm (by decide)
        · exact hn hm
    have hparts : jsSplit ':' (u ++ "/" ++ n ++ ":" ++ s)
        = [String.mk (u.toList ++ '/' :: n.toList), s] := by
      unfold jsSplit
      rw [hlist, splitOnChar_append ':' _ _ hnc, splitOnChar_not_mem ':' _ hs]
      simp [mk_toList]
    have hfirst : jsSplit '/' (String.mk (u.toList ++ '/' :: n.toList))
        = u :: (splitOnChar '/' n.toList).map (fun l => String.mk l) := by
      unfold jsSplit
      show (splitOnChar '/' (u.toList ++ '/' :: n.toList)).map _ = _
      rw [splitOnChar_append '/' _ _ hu1]
      simp [mk_toList]
    unfold deriveBncCreds
    rw [hparts]
    show ((jsSplit '/' (String.mk (u.toList ++ '/' :: n.toList))).headD "",
        ([String.mk (u.toList ++ '/' :: n.toList), s] : List String)[1]?) = (u, some s)
    rw [hfirst]
    rfl
  constructor
  · intro bnc net u n s hu1 hu2 hn hs hp
    have h := hsplit u n s hu1 hu2 hn hs
    constructor
    · show (deriveBncCreds net.password).fst = u
      rw [hp, h]
    · show (deriveBncCreds net.password).snd = some s
      rw [hp, h]
  · intro bnc net h
    show (deriveBncCreds net.password).snd = none
    unfold deriveBncCreds
    unfold jsSplit
    rw [splitOnChar_not_mem ':' _ h]
    rfl

/-- Witness for the amended C8 theorem at concrete credentials. -/
theorem deriveBncCreds_amended_spec_witness :
    (initBncCreds {} { id := 6, password := "alice/net:secret" }).username = "alice"
      ∧ (initBncCreds {} { id := 6, password := "alice/net:secret" }).password
          = some "secret"
      ∧ (initBncCreds {} { id := 7, password := "nocolon" }).password = none := by
  have h1 := deriveBncCreds_amended_spec.1 {} { id := 6, password := "alice/net:secret" }
    "alice" "net" "secret" (by decide) (by decide) (by decide) (by decide) (by decide)
  have h2 := deriveBncCreds_amended_spec.2 {} { id := 7, password := "nocolon" }
    (by decide)
  exact ⟨h1.1, h1.2, h2⟩

/-- Concrete new network for the C3 witness: host, port and nick all set,
no prior snapshot. -/
def cwNet : Network :=
  { id := 1, name := "new1",
    connection := { server := "irc.example.org", port := 6697, nick := "alice" } }

/-- Witness for C3: the concrete new network triggers exactly one
create-network command and gets its relay name assigned. -/
theorem saveNet_create_gating_witness :
    (saveNet wtCtl [] cwNet).snd
        = some (BncCommand.addNetwork "new1" (computeTags none cwNet))
      ∧ (saveNet wtCtl [] cwNet).fst.connection.bncname = "new1" := by
  have h := (saveNet_create_gating wtCtl [] cwNet (by decide)
    none (computeTags none cwNet) (by rfl) rfl).2.1 (by decide)
  exact h

/-! ### Naming Allocator (`network.new` handler, source lines 336-362) -/

/-- The default network name for counter `k`. -/
def netName (k : Nat) : String := "Network" ++ toString k

/-- One loop iteration's lookup: `_.find(state.networks, {name: ...})`,
falling back to `_.find(state.networks, {connection: {bncname: ...}})`
(the second lookup runs only when the first finds nothing). -/
def allocFind (nets : List Network) (k : Nat) : Option Network :=
  match nets.find? (fun n => n.name == netName k) with
  | some n => some n
  | none => nets.find? (fun n => n.connection.bncname == netName k)

/-- The loop's exit condition at counter `k`: nothing found, or the found
network is the new network itself (`network === existingNet`). -/
def allocStops (nets : List Network) (selfId k : Nat) : Bool :=
  match allocFind nets k with
  | none => true
  | some n => n.id == selfId

/-- The `while (existingNet)` loop, fuelled (the source loop always
terminates since only finitely many names are taken). -/
def allocLoop (nets : List Network) (selfId : Nat) : Nat → Nat → Option Nat
  | 0, _ => none
  | fuel + 1, k =>
    if allocStops nets selfId k then some k
    else allocLoop nets selfId fuel (k + 1)

/-- The counter the naming loop assigns, scanning from 1. -/
def allocateNetworkName (nets : List Network) (selfId fuel : Nat) : Option Nat :=
  allocLoop nets selfId fuel 1

/-- The `network.new` rename: when the new network has no `bncname` yet,
its display name becomes `"Network<k>"` for the `k` the loop stops at. -/
def onNetworkNew (nets : List Network) (self : Network) (fuel : Nat) : Network :=
  if self.connection.bncname = "" then
    match allocateNetworkName nets self.id fuel with
    | some k => { self with name := netName k }
    | none => self
  else self

/-- A pre-existing network holding "Network1" as its relay name only. -/
def axNet : Network :=
  { id := 0, name := "foo", connection := { bncname := "Network1" } }

/-- The newly created network, itself currently named "Network1". -/
def axSelf : Network := { id := 1, name := "Network1" }

/-- Claim C9, counterexample: with an existing network whose relay name
(`bncname`) is "Network1" and a new network whose own display name is
already "Network1", the allocator assigns "Network1" — the name-lookup finds
the new network itself and stops, skipping the relay-name check — even
though an existing (distinct) local network holds that relay name, so the
assigned k is not the smallest with no existing display name and no
existing relay name "Network<k>". -/
theorem allocateName_bncname_shadowed :
    (onNetworkNew [axNet, axSelf] axSelf 5).name = "Network1"
      ∧ axNet.connection.bncname = "Network1"
      ∧ axNet.id ≠ axSelf.id
      ∧ axSelf.connection.bncname = "" := by
  refine ⟨by decide, by decide, by decide, by decide⟩

def nw1 : Network := { id := 20, name := "Network1" }

def nw3 : Network := { id := 21, name := "Network3" }

def nw0 : Network := { id := 22, name := "" }

/-- Claim C9, amended: scanning `k = 1, 2, …`, the loop assigns
`"Network<k>"` for the smallest `k` at which the lookup — first network
with that display name, else first network with that relay name — finds
nothing or finds the new network itself.  In particular, with existing
networks `Network1` and `Network3` the new network is named `Network2`; but
when the new network's own current display name is `"Network<k>"`, the
relay-name check for that `k` is skipped (see the counterexample). -/
theorem allocateName_amended_spec :
    (∀ (nets : List Network) (selfId fuel k0 k : Nat),
        allocLoop nets selfId fuel k0 = some k →
        allocStops nets selfId k = true
          ∧ k0 ≤ k
          ∧ ∀ j, k0 ≤ j → j < k → allocStops nets selfId j = false)
      ∧ (onNetworkNew [nw1, nw3, nw0] nw0 5).name = "Network2" := by
  constructor
  · intro nets selfId fuel
    induction fuel with
    | zero =>
      intro k0 k h
      exact absurd h (by simp [allocLoop])
    | succ fuel ih =>
      intro k0 k h
      unfold allocLoop at h
      by_cases hstop : allocStops nets selfId k0 = true
      · rw [if_pos hstop] at h
        have hk : k0 = k := by simpa using h
        subst hk
        exact ⟨hstop, Nat.le_refl k0, fun j h1 h2 => absurd (Nat.lt_of_le_of_lt h1 h2)
          (Nat.lt_irrefl k0)⟩
      · rw [if_neg hstop] at h
        obtain ⟨hs, hle, hlt⟩ := ih (k0 + 1) k h
        refine ⟨hs, Nat.le_trans (Nat.le_succ k0) hle, ?_⟩
        intro j h1 h2
        by_cases hj : j = k0
        · subst hj
          exact eq_false_of_ne_true hstop
        · exact hlt j (by omega) h2
  · decide

/-- Witness for the amended C9 theorem: in the Network1/Network3 scenario
the loop stops at 2 and not at 1. -/
theorem allocateName_amended_spec_witness :
    allocStops [nw1, nw3, nw0] 22 2 = true
      ∧ allocStops [nw1, nw3, nw0] 22 1 = false := by
  have h := allocateName_amended_spec.1 [nw1, nw3, nw0] 22 5 1 2 (by decide)
  exact ⟨h.1, h.2.2 1 (Nat.le_refl 1) (by omega)⟩

/-! ### Network Merger (`addNetworkToState`, source lines 167-191) -/

/-- One entry of the relay's reported network list
(`client.bnc.getNetworks()`). -/
structure BncNetInfo where
  name : String
  host : String := ""
  port : Nat := 0
  tls : Bool := false
  password : String := ""
  nick : String := ""
  user : String := ""
  deriving DecidableEq, Repr

/-- Modelled from the spec: the state store's `getNetworkFromBncName`
(`findNetworkByRelayName` in spec section 6) returns the local network whose
relay name equals the given name; the state store is outside this module's
source. -/
def getNetworkFromBncName (nets : List Network) (nm : String) : Option Network :=
  nets.find? (fun n => n.connection.bncname == nm)

/-- Modelled from the spec: `state.addNetwork(name, nick, params)` creates a
local network with the given display name, nick and connection parameters
`{server: host, port, tls, password, bncname: name, username: user}` and
appends it to the network list. -/
def mkNetworkFromBnc (newId : Nat) (rn : BncNetInfo) : Network :=
  { id := newId
    name := rn.name
    username := rn.user
    password := rn.password
    connection :=
      { server := rn.host, port := rn.port, tls := rn.tls, nick := rn.nick,
        bncname := rn.name } }

/-- `syncBncNetwork` as a whole-network transformation: only the buffer list
changes. -/
def syncNetBuffers (isChan isQy : String → Bool) (pt : String → Nat)
    (remote : List RemoteBuffer) (net : Network) : Network :=
  { net with buffers := syncBuffers isChan isQy pt net.buffers remote }

/-- `addNetworkToState(network)`: find-or-create the local network keyed by
the relay name, then reconcile its buffers. -/
def addNetworkToState (isChan isQy : String → Bool) (pt : String → Nat)
    (nets : List Network) (newId : Nat) (rn : BncNetInfo)
    (remoteBufs : List RemoteBuffer) : List Network :=
  match getNetworkFromBncName nets rn.name with
  | some _ =>
    updateFirst (fun n => n.connection.bncname == rn.name)
      (syncNetBuffers isChan isQy pt remoteBufs) nets
  | none =>
    nets ++ [syncNetBuffers isChan isQy pt remoteBufs (mkNetworkFromBnc newId rn)]

theorem find?_decomp {α : Type} (p : α → Bool) :
    ∀ (l : List α) (a : α), l.find? p = some a →
      ∃ l1 l2, l = l1 ++ a :: l2 ∧ ∀ x ∈ l1, p x = false := by
  intro l
  induction l with
  | nil =>
    intro a h
    exact absurd h (by simp)
  | cons x xs ih =>
    intro a h
    by_cases hx : p x = true
    · rw [List.find?_cons_of_pos _ hx] at h
      have hxa : x = a := by simpa using h
      subst hxa
      exact ⟨[], xs, rfl, fun y hy => absurd hy (List.not_mem_nil y)⟩
    · have hx' : p x = false := eq_false_of_ne_true hx
      rw [List.find?_cons_of_neg _ (by simp [hx'])] at h
      obtain ⟨l1, l2, heq, hall⟩ := ih a h
      refine ⟨x :: l1, l2, by rw [heq]; rfl, ?_⟩
      intro y hy
      rcases List.mem_cons.mp hy with h1 | h1
      · subst h1
        exact hx'
      · exact hall y h1

theorem updateFirst_decomp {α : Type} (p : α → Bool) (f : α → α) :
    ∀ (l1 : List α) (l2 : List α) (a : α), (∀ x ∈ l1, p x = false) → p a = true →
      updateFirst p f (l1 ++ a :: l2) = l1 ++ f a :: l2 := by
  intro l1
  induction l1 with
  | nil =>
    intro l2 a _ ha
    show updateFirst p f (a :: l2) = f a :: l2
    rw [updateFirst_cons, if_pos ha]
  | cons x xs ih =>
    intro l2 a h1 ha
    have hx := h1 x (List.mem_cons_self x xs)
    rw [List.cons_append, updateFirst_cons, if_neg (by simp [hx]),
      ih l2 a (fun y hy => h1 y (List.mem_cons_of_mem x hy)) ha]
    rfl

/-- Claim C10: when the relay reports a network whose name matches an
existing local network's relay name, the merger leaves every network's
connection parameters and identity completely unchanged — the matched
network only has its buffer list reconciled, all other networks are
untouched, and no network is added or removed; a new local network entity
is created (appended, from the relay-reported parameters) only when no
local network carries that relay name. -/
theorem addNetworkToState_frame (isChan isQy : String → Bool) (pt : String → Nat)
    (nets : List Network) (newId : Nat) (rn : BncNetInfo)
    (remoteBufs : List RemoteBuffer) :
    (∀ net, getNetworkFromBncName nets rn.name = some net →
        ∃ l1 l2, nets = l1 ++ net :: l2
          ∧ (∀ m ∈ l1, (m.connection.bncname == rn.name) = false)
          ∧ addNetworkToState isChan isQy pt nets newId rn remoteBufs
              = l1 ++ { net with
                  buffers := syncBuffers isChan isQy pt net.buffers remoteBufs } :: l2)
      ∧ (getNetworkFromBncName nets rn.name = none →
          addNetworkToState isChan isQy pt nets newId rn remoteBufs
            = nets ++ [syncNetBuffers isChan isQy pt remoteBufs
                (mkNetworkFromBnc newId rn)]) := by
  constructor
  · intro net hfind
    have hfind' : nets.find? (fun n => n.connection.bncname == rn.name) = some net :=
      hfind
    obtain ⟨l1, l2, heq, hall⟩ := find?_decomp _ nets net hfind'
    have hp := List.find?_some hfind'
    refine ⟨l1, l2, heq, hall, ?_⟩
    unfold addNetworkToState
    split
    next n hn =>
      rw [heq, updateFirst_decomp _ _ l1 l2 net hall hp]
      rfl
    next hn =>
      rw [hfind] at hn
      exact absurd hn (by simp)
  · intro hfind
    unfold addNetworkToState
    split
    next n hn =>
      rw [hfind] at hn
      exact absurd hn (by simp)
    next hn => rfl

/-- Witness for C10: merging a relay entry matching the existing network
`wtNet` leaves its connection record unchanged (only buffers reconciled). -/
theorem addNetworkToState_frame_witness :
    (addNetworkToState (fun _ => false) (fun _ => false) (fun _ => 0)
        [wtNet] 9 { name := "mynet" } []).map (fun n => n.connection)
      = [wtNet.connection] := by
  obtain ⟨l1, l2, heq, _, hres⟩ := (addNetworkToState_frame (fun _ => false)
    (fun _ => false) (fun _ => 0) [wtNet] 9 { name := "mynet" } []).1 wtNet (by rfl)
  rw [hres]
  cases l1 with
  | nil =>
    have hl2 : l2 = [] := by simpa using heq
    subst hl2
    rfl
  | cons x xs =>
    have hlen := congrArg List.length heq
    simp [List.length_append] at hlen

end Kiwi
